import Mathlib

/-!
Verification development for the grove worktree manager.

The Go sources are shallowly embedded: pure logic becomes Lean functions,
the filesystem and the VCS gateway become explicit values threaded through
the command functions, and every external call that can fail is driven by
an oracle recorded in an environment structure.  JSON is modelled at the
syntax-tree level (`Json`), timestamps as natural numbers, and a Go map as
an association list with its lookup function (`alookup`); a Go nil map is
`Option.none`, distinct from the empty map `some []`, so the nil-map write
panic of `State.Add` is representable.
-/

/-- JSON values as produced and consumed by encoding/json, at the level of
the syntax tree (object fields in emission order). -/
inductive Json where
  | null
  | str (s : String)
  | num (n : Nat)
  | obj (fields : List (String × Json))

/-- Association-list lookup: the first binding of the key wins.  Models
both Go map indexing and reading a file from a path-indexed store. -/
def alookup {α : Type} (k : String) : List (String × α) → Option α
  | [] => none
  | (k₂, v) :: rest => if k₂ = k then some v else alookup k rest

theorem alookup_nil {α : Type} (k : String) : alookup (α := α) k [] = none := rfl

theorem alookup_cons {α : Type} (k k₂ : String) (v : α) (l : List (String × α)) :
    alookup k ((k₂, v) :: l) = if k₂ = k then some v else alookup k l := rfl

theorem alookup_append {α : Type} (k : String) (l₁ l₂ : List (String × α)) :
    alookup k (l₁ ++ l₂) =
      match alookup k l₁ with
      | some v => some v
      | none => alookup k l₂ := by
  induction l₁ with
  | nil => rfl
  | cons hd tl ih =>
    obtain ⟨k₂, v⟩ := hd
    by_cases h : k₂ = k <;> simp [alookup, h, ih]

theorem alookup_eq_none_iff {α : Type} (k : String) (l : List (String × α)) :
    alookup k l = none ↔ k ∉ l.map Prod.fst := by
  induction l with
  | nil => simp [alookup]
  | cons hd tl ih =>
    obtain ⟨k₂, v⟩ := hd
    by_cases h : k₂ = k
    · subst h
      simp [alookup]
    · rw [alookup_cons, if_neg h, ih]
      simp only [List.map_cons, List.mem_cons]
      constructor
      · intro hn hc
        rcases hc with hc | hc
        · exact h hc.symm
        · exact hn hc
      · intro hn hc
        exact hn (Or.inr hc)

theorem alookup_mem {α : Type} {k : String} {v : α} {l : List (String × α)}
    (h : alookup k l = some v) : (k, v) ∈ l := by
  induction l with
  | nil => simp [alookup] at h
  | cons hd tl ih =>
    obtain ⟨k₂, v₂⟩ := hd
    by_cases hk : k₂ = k
    · subst hk
      simp [alookup] at h
      simp [h]
    · simp [alookup, hk] at h
      exact List.mem_cons_of_mem _ (ih h)

theorem alookup_eq_some_of_mem {α : Type} {k : String} {v : α} {l : List (String × α)}
    (hnd : (l.map Prod.fst).Nodup) (hm : (k, v) ∈ l) : alookup k l = some v := by
  induction l with
  | nil => simp at hm
  | cons hd tl ih =>
    obtain ⟨k₂, v₂⟩ := hd
    simp only [List.map_cons, List.nodup_cons] at hnd
    rcases List.mem_cons.mp hm with heq | htl
    · have hk : k = k₂ := congrArg Prod.fst heq
      have hv : v = v₂ := congrArg Prod.snd heq
      subst hk
      subst hv
      simp [alookup]
    · have hk : k₂ ≠ k := by
        intro hc
        subst hc
        exact hnd.1 (List.mem_map_of_mem Prod.fst htl)
      simp [alookup, hk]
      exact ih hnd.2 htl

/-- Lookup is invariant under permutation when the left list has no
duplicate keys: both lists denote the same finite map. -/
theorem alookup_eq_of_perm {α : Type} {l₁ l₂ : List (String × α)}
    (hp : l₁.Perm l₂) (hnd : (l₁.map Prod.fst).Nodup) (k : String) :
    alookup k l₁ = alookup k l₂ := by
  have hnd₂ : (l₂.map Prod.fst).Nodup := ((hp.map Prod.fst).nodup_iff).mp hnd
  cases h : alookup k l₁ with
  | some v =>
    exact (alookup_eq_some_of_mem hnd₂ (hp.mem_iff.mp (alookup_mem h))).symm
  | none =>
    have : k ∉ l₂.map Prod.fst := by
      intro hc
      exact (alookup_eq_none_iff k l₁).mp h ((hp.map Prod.fst).mem_iff.mpr hc)
    exact ((alookup_eq_none_iff k l₂).mpr this).symm

/-!
## Package `internal/state` (src/internal/state/state.go)

`WorktreeEntry` and `State` mirror the Go structs.  A Go map value is an
association list; `Worktrees = none` models a nil map (the zero value of
the field), `some []` an initialized empty map.  Timestamps are `Nat`.
-/

/-- One registry record (state.go:15): branch, path, created timestamp. -/
structure WorktreeEntry where
  Branch : String
  Path : String
  Created : Nat
deriving Repr, DecidableEq

/-- Top-level structure of .grove/state.json (state.go:23).  The key of
the map is the alias. -/
structure State where
  Worktrees : Option (List (String × WorktreeEntry))
deriving Repr, DecidableEq

/-- Go map read: indexing a nil map yields a miss, never a panic. -/
def State.Get (s : State) (al : String) : Option WorktreeEntry :=
  alookup al (s.Worktrees.getD [])

/-- AliasExists (state.go:126): comma-ok lookup. -/
def State.AliasExists (s : State) (al : String) : Bool :=
  (s.Get al).isSome

/-- Outcome of `State.Add`.  Writing to a nil map panics in Go, so the
panic is an explicit outcome; the `err` outcome carries the receiver,
which the Go method leaves untouched when it returns an error. -/
inductive AddResult where
  | panicked
  | err (msg : String) (s : State)
  | ok (s : State)
deriving Repr, DecidableEq

/-- Add (state.go:95): duplicate-alias check, then map insert with the
current timestamp.  The insert is a write, hence the panic on a nil map. -/
def State.Add (s : State) (al branch path : String) (now : Nat) : AddResult :=
  if (s.Get al).isSome then
    .err ("alias \"" ++ al ++ "\" already exists") s
  else
    match s.Worktrees with
    | none => .panicked
    | some l => .ok ⟨some (l ++ [(al, ⟨branch, path, now⟩)])⟩

/-- Go map delete: drop every binding of the key. -/
def eraseKey {α : Type} (al : String) : List (String × α) → List (String × α)
  | [] => []
  | p :: rest => if p.1 = al then eraseKey al rest else p :: eraseKey al rest

/-- Remove (state.go:109): presence check, then map delete.  Returns the
error message (if any) together with the resulting receiver. -/
def State.Remove (s : State) (al : String) : Option String × State :=
  if (s.Get al).isSome then
    (none, ⟨some (eraseKey al (s.Worktrees.getD []))⟩)
  else
    (some ("alias \"" ++ al ++ "\" not found"), s)

/-!
### JSON encoding of the registry

`json.Marshal` emits map keys in sorted order; `json.Unmarshal` into the
`State` struct fills absent or null fields with their zero values (a nil
map for `worktrees`).
-/

/-- Field order of the marshalled entry follows the struct definition. -/
def encodeEntry (e : WorktreeEntry) : Json :=
  .obj [("branch", .str e.Branch), ("path", .str e.Path), ("created", .num e.Created)]

/-- Worktree map with keys in `json.Marshal`'s sorted key order. -/
def sortedEntries (l : List (String × WorktreeEntry)) : List (String × WorktreeEntry) :=
  List.insertionSort (fun a b => a.1 ≤ b.1) l

/-- Marshal of the whole `State`: a nil map marshals to null. -/
def encodeState (s : State) : Json :=
  match s.Worktrees with
  | none => .obj [("worktrees", .null)]
  | some l => .obj [("worktrees", .obj ((sortedEntries l).map (fun p => (p.1, encodeEntry p.2))))]

/-- Unmarshal of a string-typed struct field: absent or null leaves the
zero value, a string sets it, anything else is a type error. -/
def decodeStrField (fields : List (String × Json)) (name : String) : Option String :=
  match alookup name fields with
  | none => some ""
  | some .null => some ""
  | some (.str s) => some s
  | some _ => none

/-- Unmarshal of the numeric `created` field. -/
def decodeNumField (fields : List (String × Json)) (name : String) : Option Nat :=
  match alookup name fields with
  | none => some 0
  | some .null => some 0
  | some (.num n) => some n
  | some _ => none

/-- Unmarshal of one `WorktreeEntry`. -/
def decodeEntry : Json → Option WorktreeEntry
  | .null => some ⟨"", "", 0⟩
  | .obj fields =>
    match decodeStrField fields "branch", decodeStrField fields "path",
        decodeNumField fields "created" with
    | some b, some p, some c => some ⟨b, p, c⟩
    | _, _, _ => none
  | _ => none

/-- Unmarshal of the worktree map's bindings, in order. -/
def decodeEntries : List (String × Json) → Option (List (String × WorktreeEntry))
  | [] => some []
  | (k, j) :: rest =>
    match decodeEntry j, decodeEntries rest with
    | some e, some es => some ((k, e) :: es)
    | _, _ => none

/-- Unmarshal of the `State` struct: `worktrees` absent or null leaves a
nil map; a JSON object fills the map; any other shape is a parse error
(`none`). -/
def decodeState : Json → Option State
  | .null => some ⟨none⟩
  | .obj fields =>
    match alookup "worktrees" fields with
    | none => some ⟨none⟩
    | some .null => some ⟨none⟩
    | some (.obj entries) =>
      match decodeEntries entries with
      | some l => some ⟨some l⟩
      | none => none
    | some _ => none
  | _ => none

/-!
### The state file on disk

The filesystem is a path-indexed store of JSON documents; writing shadows
the previous binding, which is exactly what the temp-file-plus-rename
protocol of `Save` guarantees an observer sees (all-or-nothing). -/

def Fs : Type := List (String × Json)

def fsRead (fs : Fs) (path : String) : Option Json := alookup path fs

def fsWrite (fs : Fs) (path : String) (j : Json) : Fs := (path, j) :: fs

/-- Location of the registry file (state.go:11): dir/.grove/state.json. -/
def statePath (dir : String) : String := dir ++ "/.grove/state.json"

/-- Load (state.go:30).  A missing file is an empty registry, not an
error; malformed content is an error; a parsed registry whose map is nil
(e.g. `"worktrees": null`) is replaced by an initialized empty map. -/
def Load (fs : Fs) (dir : String) : Except String State :=
  match fsRead fs (statePath dir) with
  | none => .ok ⟨some []⟩
  | some j =>
    match decodeState j with
    | none => .error ".grove/state.json is not valid JSON"
    | some s => .ok ⟨some (s.Worktrees.getD [])⟩

/-- Save (state.go:56), successful path: the atomic rename installs the
full marshalled registry at the state path.  Failing saves are modelled
at the call sites by an oracle and leave the store untouched. -/
def Save (fs : Fs) (dir : String) (s : State) : Fs :=
  fsWrite fs (statePath dir) (encodeState s)

/-!
## Package `internal/git` (gateway data) and package `cmd` reconciler

`git.Worktree` carries what `git worktree list --porcelain` reports; the
listing itself is an external call, passed in as an `Except` value. -/

/-- git.Worktree: path, branch (or synthetic detached label), main flag. -/
structure Worktree where
  Path : String
  Branch : String
  IsMain : Bool
deriving Repr, DecidableEq

/-- cmd.orphanWorktree: a VCS-known worktree grove does not track. -/
structure orphanWorktree where
  Path : String
  Branch : String
deriving Repr, DecidableEq

/-- cmd.resolvedWorktree: result of query resolution. -/
structure resolvedWorktree where
  Alias : String
  Path : String
  Branch : String
  InState : Bool
deriving Repr, DecidableEq

/-- Paths recorded in the registry (the `tracked` set of findOrphans). -/
def trackedPaths (s : State) : List String :=
  (s.Worktrees.getD []).map (fun p => p.2.Path)

/-- The filtering loop of findOrphans: skip the main worktree, skip
tracked paths, keep the rest as path+branch pairs, in listing order. -/
def orphanScan (tracked : List String) : List Worktree → List orphanWorktree
  | [] => []
  | wt :: rest =>
    if wt.IsMain then orphanScan tracked rest
    else if wt.Path ∈ tracked then orphanScan tracked rest
    else ⟨wt.Path, wt.Branch⟩ :: orphanScan tracked rest

/-- findOrphans (resolve.go): list the VCS worktrees, drop the main one
and every registry-tracked path.  A listing failure propagates. -/
def findOrphans (s : State) (listRes : Except String (List Worktree)) :
    Except String (List orphanWorktree) :=
  match listRes with
  | .error e => .error e
  | .ok wts => .ok (orphanScan (trackedPaths s) wts)

/-- resolveWorktree (resolve.go): alias, then branch-in-registry, then
path-in-registry, then orphan by branch or path; `ok none` when nothing
matches. -/
def resolveWorktree (query : String) (s : State)
    (listRes : Except String (List Worktree)) :
    Except String (Option resolvedWorktree) :=
  match s.Get query with
  | some entry => .ok (some ⟨query, entry.Path, entry.Branch, true⟩)
  | none =>
    match (s.Worktrees.getD []).find? (fun p => p.2.Branch == query) with
    | some p => .ok (some ⟨p.1, p.2.Path, p.2.Branch, true⟩)
    | none =>
      match (s.Worktrees.getD []).find? (fun p => p.2.Path == query) with
      | some p => .ok (some ⟨p.1, p.2.Path, p.2.Branch, true⟩)
      | none =>
        match listRes with
        | .error e => .error e
        | .ok wts =>
          match wts.find? (fun wt => !wt.IsMain && (wt.Branch == query || wt.Path == query)) with
          | some wt => .ok (some ⟨"", wt.Path, wt.Branch, false⟩)
          | none => .ok none

/-- branchAlias (create.go:171): last slash-separated segment. -/
def branchAlias (branch : String) : String :=
  (branch.splitOn "/").getLastD ""

/-!
## Removal orchestrator (runClean in src/cmd/cd.go:89-215, cleanOrphans
in src/cmd/cd.go:217-270, shared loop also at src/cmd/clean.go:104-129)

Side effects are recorded as an event trace: every `git worktree remove`
invocation, every registry deletion, every `state.Save` call, the prune,
and warnings.  Oracles in `CleanEnv` decide what the external world
answers. -/

/-- Observable external actions of the command functions. -/
inductive Ev where
  | vcsAdd (path branch : String)
  | vcsRemove (path : String) (force : Bool)
  | dropAlias (al : String)
  | saveState (s : State)
  | prune
  | warn (msg : String)
deriving Repr, DecidableEq

/-- Oracles for one `grove clean` run. -/
structure CleanEnv where
  statusOf : String → Except String String
  pathExists : String → Bool
  removeOk : String → Bool
  listRes : Except String (List Worktree)
  answerTracked : String
  answerOrphans : String
  saveOk : Bool
  pruneOk : Bool

/-- cd.go:115 worktreeInfo — alias, path, status of one entry. -/
structure worktreeInfo where
  wtAlias : String
  path : String
  status : String
deriving Repr, DecidableEq

/-- A prompt answer confirms only as a literal y or Y (cd.go:156). -/
def isYes (ans : String) : Bool := ans == "y" || ans == "Y"

/-- git.Status with its error downgraded to the "unknown" label
(cd.go:132-135). -/
def statusOrUnknown (env : CleanEnv) (path : String) : String :=
  match env.statusOf path with
  | .ok st => st
  | .error _ => "unknown"

/-- The alias list iterated by runClean: registry keys sorted by
sort.Strings (cd.go:121-125). -/
def sortedAliases (s : State) : List String :=
  List.insertionSort (fun a b => a ≤ b) ((s.Worktrees.getD []).map Prod.fst)

/-- The toRemove list (cd.go:127-140): one worktreeInfo per alias in
sorted order, with the status check already folded in. -/
def buildInfos (env : CleanEnv) (s : State) : List worktreeInfo :=
  (sortedAliases s).map (fun al =>
    let e := (s.Get al).getD ⟨"", "", 0⟩
    ⟨al, e.Path, statusOrUnknown env e.Path⟩)

/-- The removal loop (cd.go:176-195): a vanished path only drops the
registry record and still counts; a VCS removal failure is reported and
iteration continues; a successful removal also drops the record.
Returns (removed count, final registry, events in order). -/
def cleanPass (env : CleanEnv) (force : Bool) :
    List worktreeInfo → State → Nat × State × List Ev
  | [], s => (0, s, [])
  | wt :: rest, s =>
    if env.pathExists wt.path then
      if env.removeOk wt.path then
        let s₁ := (State.Remove s wt.wtAlias).2
        let out := cleanPass env force rest s₁
        (out.1 + 1, out.2.1, Ev.vcsRemove wt.path force :: Ev.dropAlias wt.wtAlias :: out.2.2)
      else
        let out := cleanPass env force rest s
        (out.1, out.2.1, Ev.vcsRemove wt.path force :: out.2.2)
    else
      let s₁ := (State.Remove s wt.wtAlias).2
      let out := cleanPass env force rest s₁
      (out.1 + 1, out.2.1, Ev.dropAlias wt.wtAlias :: out.2.2)

/-- The orphan removal loop (cd.go:259-267): best effort, failures are
printed and skipped, no registry updates. -/
def orphanPass (env : CleanEnv) (force : Bool) :
    List orphanWorktree → Nat × List Ev
  | [] => (0, [])
  | o :: rest =>
    let out := orphanPass env force rest
    if env.removeOk o.Path then
      (out.1 + 1, Ev.vcsRemove o.Path force :: out.2)
    else
      (out.1, Ev.vcsRemove o.Path force :: out.2)

/-- cleanOrphans (cd.go:217-270): find the orphans, compute statuses,
gate on one confirmation (forcing when some orphan is dirty), then run
the best-effort removal loop. -/
def cleanOrphans (env : CleanEnv) (s : State) (force : Bool) :
    Except String Nat × List Ev :=
  match findOrphans s env.listRes with
  | .error e => (.error e, [])
  | .ok orphans =>
    if orphans.isEmpty then (.ok 0, [])
    else
      let dirty := orphans.filter (fun o => !(statusOrUnknown env o.Path == "clean"))
      if !dirty.isEmpty && !force then
        if isYes env.answerOrphans then
          let out := orphanPass env true orphans
          (.ok out.1, out.2)
        else (.ok 0, [])
      else
        if isYes env.answerOrphans then
          let out := orphanPass env force orphans
          (.ok out.1, out.2)
        else (.ok 0, [])

/-- Result of one `grove clean` run: outcome, filesystem, event trace. -/
structure CleanOut where
  result : Except String Unit
  fs : Fs
  evs : List Ev

/-- runClean (cd.go:89-215), from the point where the registry has been
loaded: empty registry short-circuits to the orphan pass; otherwise the
sorted status list is shown, one prompt gates the whole batch, dirty
entries upgrade the removal to forced, the loop runs, the registry is
saved once, prune runs best-effort, and the orphan pass follows. -/
def runClean (env : CleanEnv) (cleanForce : Bool) (s : State) (fs : Fs)
    (root : String) : CleanOut :=
  if (s.Worktrees.getD []).isEmpty then
    match cleanOrphans env s cleanForce with
    | (.error e, evs) => ⟨.error e, fs, evs⟩
    | (.ok _, evs) => ⟨.ok (), fs, evs⟩
  else
    let infos := buildInfos env s
    let dirty := infos.filter (fun wt => !(wt.status == "clean"))
    if !(isYes env.answerTracked) then ⟨.ok (), fs, []⟩
    else
      let force := if !dirty.isEmpty && !cleanForce then true else cleanForce
      let out := cleanPass env force infos s
      if env.saveOk then
        let fs₁ := Save fs root out.2.1
        let pruneEvs := if env.pruneOk then [Ev.prune] else [Ev.prune, Ev.warn "git worktree prune failed"]
        let orphanOut := cleanOrphans env out.2.1 cleanForce
        match orphanOut.1 with
        | .error e =>
          ⟨.error e, fs₁, out.2.2 ++ [Ev.saveState out.2.1] ++ pruneEvs ++ orphanOut.2⟩
        | .ok _ =>
          ⟨.ok (), fs₁, out.2.2 ++ [Ev.saveState out.2.1] ++ pruneEvs ++ orphanOut.2⟩
      else
        ⟨.error "state save failed", fs, out.2.2 ++ [Ev.saveState out.2.1]⟩

/-!
## Creation orchestrator (runCreate in src/cmd/create.go:45-167)

The run is modelled from the point where config and registry are loaded.
The VCS worktree list is threaded through so the rollback's effect on it
is visible; `CreateEnv` holds the oracles for each external step. -/

/-- .groverc.json (src/internal/config/config.go:13).  The Go field
`Prefix` is called `prefixName` here. -/
structure Config where
  WorktreeDir : String
  prefixName : String
  Symlink : List String
  AfterCreate : String
deriving Repr, DecidableEq

/-- Outcome of one files.Symlink call (files.go:94-119): created,
silently skipped (destination already a symlink or source missing),
destination conflict, or any other error. -/
inductive SymlinkRes where
  | created
  | skipped
  | conflict
  | fail (msg : String)
deriving Repr, DecidableEq

/-- Oracles for one `grove create` run. -/
structure CreateEnv where
  gitAddOk : Bool
  copyRes : Except String (List String)
  symlinkRes : String → SymlinkRes
  hookOk : Bool
  saveOk : Bool
  rollbackOk : Bool
  now : Nat

/-- Alias derivation (create.go:70-73): --name wins, else the last
segment of the branch name. -/
def deriveAlias (createName branch : String) : String :=
  if createName == "" then branchAlias branch else createName

/-- Destination path (create.go:82-95): worktreeDir joined with
prefix-alias, or the bare alias when the prefix is empty.  Abs and
EvalSymlinks are the identity here: paths are opaque canonical names. -/
def worktreePathOf (root : String) (cfg : Config) (al : String) : String :=
  let wtName := if cfg.prefixName == "" then al else cfg.prefixName ++ "-" ++ al
  root ++ "/" ++ cfg.WorktreeDir ++ "/" ++ wtName

/-- The deferred rollback (create.go:107-114): forced removal of the new
worktree, best effort — a rollback failure leaves the worktree and is
downgraded to a warning. -/
def rollback (env : CreateEnv) (vcs : List Worktree) (path : String) :
    List Worktree × List Ev :=
  if env.rollbackOk then
    (vcs.filter (fun wt => wt.Path ≠ path), [Ev.vcsRemove path true])
  else
    (vcs, [Ev.vcsRemove path true, Ev.warn "rollback failed, manual cleanup needed"])

/-- The symlink loop (create.go:125-139): a destination conflict is
warned about and skipped, any other symlink error aborts the loop with
the failing name attached, created links are collected. -/
def symlinkLoop (env : CreateEnv) : List String → List Ev × Except String (List String)
  | [] => ([], .ok [])
  | name :: rest =>
    match env.symlinkRes name with
    | .fail msg => ([], .error ("symlink " ++ name ++ ": " ++ msg))
    | .conflict =>
      let out := symlinkLoop env rest
      (Ev.warn ("skipping symlink " ++ name) :: out.1, out.2)
    | .created =>
      let out := symlinkLoop env rest
      (out.1, match out.2 with | .ok l => .ok (name :: l) | .error e => .error e)
    | .skipped => symlinkLoop env rest

/-- Result of one `grove create` run. -/
structure CreateOut where
  result : Except String Unit
  panicked : Bool
  fs : Fs
  vcs : List Worktree
  symlinked : List String
  evs : List Ev

/-- runCreate (create.go:45-167): duplicate-alias fail-fast before any
VCS work; `git worktree add`; from then on every fatal step failure runs
the rollback before surfacing; the symlink conflict alone is non-fatal;
the final registry add and save also roll back on failure. -/
def runCreate (env : CreateEnv) (branch createName : String) (cfg : Config)
    (root : String) (s : State) (fs : Fs) (vcs : List Worktree) : CreateOut :=
  let al := deriveAlias createName branch
  if s.AliasExists al then
    ⟨.error ("alias \"" ++ al ++ "\" already exists — use --name to choose a different one"),
      false, fs, vcs, [], []⟩
  else
    let path := worktreePathOf root cfg al
    if !env.gitAddOk then
      ⟨.error "git worktree add failed", false, fs, vcs, [], [Ev.vcsAdd path branch]⟩
    else
      let vcs₁ := vcs ++ [⟨path, branch, false⟩]
      match env.copyRes with
      | .error e =>
        let rb := rollback env vcs₁ path
        ⟨.error e, false, fs, rb.1, [], Ev.vcsAdd path branch :: rb.2⟩
      | .ok _ =>
        let sl := symlinkLoop env cfg.Symlink
        match sl.2 with
        | .error e =>
          let rb := rollback env vcs₁ path
          ⟨.error e, false, fs, rb.1, [], Ev.vcsAdd path branch :: (sl.1 ++ rb.2)⟩
        | .ok symlinked =>
          if cfg.AfterCreate != "" && !env.hookOk then
            let rb := rollback env vcs₁ path
            ⟨.error "afterCreate command failed", false, fs, rb.1, symlinked,
              Ev.vcsAdd path branch :: (sl.1 ++ rb.2)⟩
          else
            match State.Add s al branch path env.now with
            | .panicked =>
              ⟨.error "assignment to entry in nil map", true, fs, vcs₁, symlinked,
                Ev.vcsAdd path branch :: sl.1⟩
            | .err msg _ =>
              let rb := rollback env vcs₁ path
              ⟨.error msg, false, fs, rb.1, symlinked,
                Ev.vcsAdd path branch :: (sl.1 ++ rb.2)⟩
            | .ok s₁ =>
              if env.saveOk then
                ⟨.ok (), false, Save fs root s₁, vcs₁, symlinked,
                  Ev.vcsAdd path branch :: (sl.1 ++ [Ev.saveState s₁])⟩
              else
                let rb := rollback env vcs₁ path
                ⟨.error "state save failed", false, fs, rb.1, symlinked,
                  Ev.vcsAdd path branch :: (sl.1 ++ [Ev.saveState s₁] ++ rb.2)⟩

/-!
## Single removal (runRemove in src/cmd/remove.go:31-104) and the
top-level error policy (Execute in src/cmd/root.go:22-27) -/

/-- Oracles for one `grove remove` run. -/
structure RemoveEnv where
  statusOf : String → Except String String
  pathExists : String → Bool
  removeOk : Bool
  listRes : Except String (List Worktree)
  answer : String
  saveOk : Bool
  pruneOk : Bool
  removeForce : Bool

/-- Result of one `grove remove` run. -/
structure RemoveOut where
  result : Except String Unit
  fs : Fs
  evs : List Ev

/-- Tail of runRemove (remove.go:89-103): drop the registry entry and
persist when the resolved worktree was registry-tracked, then prune
best-effort. -/
def removeFinish (env : RemoveEnv) (s : State) (fs : Fs) (root : String)
    (r : resolvedWorktree) (evs₀ : List Ev) : RemoveOut :=
  let pruneEvs := if env.pruneOk then [Ev.prune] else [Ev.prune, Ev.warn "git worktree prune failed"]
  if r.InState then
    match State.Remove s r.Alias with
    | (some msg, _) => ⟨.error msg, fs, evs₀⟩
    | (none, s₁) =>
      if env.saveOk then
        ⟨.ok (), Save fs root s₁, evs₀ ++ [Ev.dropAlias r.Alias, Ev.saveState s₁] ++ pruneEvs⟩
      else
        ⟨.error "state save failed", fs, evs₀ ++ [Ev.dropAlias r.Alias, Ev.saveState s₁]⟩
  else
    ⟨.ok (), fs, evs₀ ++ pruneEvs⟩

/-- The VCS removal step of runRemove (remove.go:83-86). -/
def removeVcsStep (env : RemoveEnv) (s : State) (fs : Fs) (root : String)
    (r : resolvedWorktree) (force : Bool) : RemoveOut :=
  if env.removeOk then
    removeFinish env s fs root r [Ev.vcsRemove r.Path force]
  else
    ⟨.error "git worktree remove failed", fs, [Ev.vcsRemove r.Path force]⟩

/-- runRemove (remove.go:31-104): resolve the query; a miss returns a
not-found error; a vanished path skips all VCS work; a dirty worktree
without --force asks for confirmation, and declining aborts with a nil
error; otherwise the VCS removal, registry update, save and prune run. -/
def runRemove (env : RemoveEnv) (query : String) (s : State) (fs : Fs)
    (root : String) : RemoveOut :=
  match resolveWorktree query s env.listRes with
  | .error e => ⟨.error e, fs, []⟩
  | .ok none =>
    ⟨.error ("no worktree matching \"" ++ query ++ "\" — run grove list to see available worktrees"),
      fs, []⟩
  | .ok (some r) =>
    if env.pathExists r.Path then
      match env.statusOf r.Path with
      | .error e => ⟨.error e, fs, []⟩
      | .ok status =>
        if !(status == "clean") && !env.removeForce then
          if isYes env.answer then
            removeVcsStep env s fs root r true
          else
            ⟨.ok (), fs, []⟩
        else
          removeVcsStep env s fs root r env.removeForce
    else
      removeFinish env s fs root r []

/-- Execute (root.go:22-27): an error returned by a command is printed
once and the process exits with status 1; otherwise the exit status is 0. -/
def exitCode {α : Type} (r : Except String α) : Nat :=
  match r with
  | .ok _ => 0
  | .error _ => 1

/-!
## Shared lemmas about the registry operations -/


theorem alookup_eraseKey_self {α : Type} (al : String) (l : List (String × α)) :
    alookup al (eraseKey al l) = none := by
  induction l with
  | nil => rfl
  | cons hd tl ih =>
    obtain ⟨k, v⟩ := hd
    by_cases hk : k = al
    · simp [eraseKey, hk, ih]
    · simp [eraseKey, hk, alookup, ih]

theorem alookup_eraseKey_other {α : Type} {al a₂ : String} (h : a₂ ≠ al)
    (l : List (String × α)) :
    alookup a₂ (eraseKey al l) = alookup a₂ l := by
  induction l with
  | nil => rfl
  | cons hd tl ih =>
    obtain ⟨k, v⟩ := hd
    by_cases hk : k = al
    · subst hk
      have hka : k ≠ a₂ := fun hc => h hc.symm
      simp [eraseKey, alookup, hka, ih]
    · by_cases hka : k = a₂
      · subst hka
        simp [eraseKey, hk, alookup]
      · simp [eraseKey, hk, alookup, hka, ih]

/-- After `Remove s al`, the alias `al` is gone (whether or not it was
present). -/
theorem remove_get_self (s : State) (al : String) :
    (State.Remove s al).2.Get al = none := by
  by_cases h : (s.Get al).isSome
  · have h₂ : (alookup al (s.Worktrees.getD [])).isSome = true := h
    simp [State.Remove, State.Get, h₂, alookup_eraseKey_self]
  · simp [State.Remove, h]
    exact Option.not_isSome_iff_eq_none.mp h

/-- `Remove s al` leaves every other alias untouched. -/
theorem remove_get_other (s : State) {al a₂ : String} (h : a₂ ≠ al) :
    (State.Remove s al).2.Get a₂ = s.Get a₂ := by
  by_cases hs : (s.Get al).isSome
  · have h₂ : (alookup al (s.Worktrees.getD [])).isSome = true := hs
    simp [State.Remove, State.Get, h₂, alookup_eraseKey_other h]
  · simp [State.Remove, hs]

/-!
## Claim theorems -/

/-- C6: `Add` on a registry already containing the alias fails with the
duplicate-alias error and leaves the registry unchanged; on an
(initialized) registry not containing the alias it inserts a new entry
with the given branch, path and current timestamp. -/
theorem c6_add_duplicate_and_insert (s : State) (al b p : String) (t : Nat) :
    (State.AliasExists s al = true →
      State.Add s al b p t = .err ("alias \"" ++ al ++ "\" already exists") s) ∧
    (State.AliasExists s al = false → s.Worktrees.isSome = true →
      ∃ s₁, State.Add s al b p t = .ok s₁ ∧
        s₁.Get al = some ⟨b, p, t⟩ ∧
        ∀ a₂, a₂ ≠ al → s₁.Get a₂ = s.Get a₂) := by
  constructor
  · intro h
    have h₂ : (s.Get al).isSome = true := h
    simp [State.Add, h₂]
  · intro h₁ h₂
    rcases Option.isSome_iff_exists.mp h₂ with ⟨l, hl⟩
    have hg : ∀ a₂, s.Get a₂ = alookup a₂ l := by
      intro a₂
      simp [State.Get, hl]
    have hnone : alookup al l = none := by
      have h₃ : (s.Get al).isSome = false := h₁
      rw [hg al] at h₃
      exact Option.not_isSome_iff_eq_none.mp (by simp [h₃])
    have h₃ : (s.Get al).isSome = false := h₁
    refine ⟨⟨some (l ++ [(al, ⟨b, p, t⟩)])⟩, ?_, ?_, ?_⟩
    · simp [State.Add, h₃, hl]
    · simp [State.Get, alookup_append, hnone, alookup]
    · intro a₂ ha₂
      have hne : al ≠ a₂ := fun hc => ha₂ hc.symm
      simp [State.Get, alookup_append, alookup, hne, hg a₂]
      cases hc : alookup a₂ l <;> simp [hc, hl]

/-- Witness for C6 on a one-entry registry. -/
theorem c6_witness :
    State.Add ⟨some [("auth", ⟨"feature/auth", "/w/auth", 5⟩)]⟩ "auth" "b" "/w/b" 9 =
      .err ("alias \"" ++ "auth" ++ "\" already exists") ⟨some [("auth", ⟨"feature/auth", "/w/auth", 5⟩)]⟩ ∧
    ∃ s₁, State.Add ⟨some [("auth", ⟨"feature/auth", "/w/auth", 5⟩)]⟩ "pay" "feature/pay" "/w/pay" 9 = .ok s₁ ∧
      s₁.Get "pay" = some ⟨"feature/pay", "/w/pay", 9⟩ ∧
      ∀ a₂, a₂ ≠ "pay" → s₁.Get a₂ = State.Get ⟨some [("auth", ⟨"feature/auth", "/w/auth", 5⟩)]⟩ a₂ :=
  ⟨(c6_add_duplicate_and_insert ⟨some [("auth", ⟨"feature/auth", "/w/auth", 5⟩)]⟩ "auth" "b" "/w/b" 9).1 (by decide),
   (c6_add_duplicate_and_insert ⟨some [("auth", ⟨"feature/auth", "/w/auth", 5⟩)]⟩ "pay" "feature/pay" "/w/pay" 9).2 (by decide) (by decide)⟩

/-- Membership in the findOrphans scan: exactly the non-main worktrees
whose path is not registry-tracked, as path+branch pairs. -/
theorem orphanScan_mem (tracked : List String) (V : List Worktree) (o : orphanWorktree) :
    o ∈ orphanScan tracked V ↔
      ∃ wt, wt ∈ V ∧ wt.IsMain = false ∧ wt.Path ∉ tracked ∧
        o = ⟨wt.Path, wt.Branch⟩ := by
  induction V with
  | nil => simp [orphanScan]
  | cons wt rest ih =>
    by_cases hm : wt.IsMain = true
    · rw [orphanScan, if_pos hm, ih]
      constructor
      · rintro ⟨w, hw, h1, h2, h3⟩
        exact ⟨w, List.mem_cons_of_mem _ hw, h1, h2, h3⟩
      · rintro ⟨w, hw, h1, h2, h3⟩
        rcases List.mem_cons.mp hw with hw | hw
        · subst hw
          rw [hm] at h1
          exact absurd h1 (by simp)
        · exact ⟨w, hw, h1, h2, h3⟩
    · have hm₂ : wt.IsMain = false := by
        cases hmm : wt.IsMain
        · rfl
        · exact absurd hmm hm
      by_cases ht : wt.Path ∈ tracked
      · rw [orphanScan, if_neg (by simp [hm₂]), if_pos ht, ih]
        constructor
        · rintro ⟨w, hw, h1, h2, h3⟩
          exact ⟨w, List.mem_cons_of_mem _ hw, h1, h2, h3⟩
        · rintro ⟨w, hw, h1, h2, h3⟩
          rcases List.mem_cons.mp hw with hw | hw
          · subst hw
            exact absurd ht h2
          · exact ⟨w, hw, h1, h2, h3⟩
      · rw [orphanScan, if_neg (by simp [hm₂]), if_neg ht]
        constructor
        · intro hmem
          rcases List.mem_cons.mp hmem with hmem | hmem
          · exact ⟨wt, List.mem_cons_self _ _, hm₂, ht, hmem⟩
          · rcases ih.mp hmem with ⟨w, hw, h1, h2, h3⟩
            exact ⟨w, List.mem_cons_of_mem _ hw, h1, h2, h3⟩
        · rintro ⟨w, hw, h1, h2, h3⟩
          rcases List.mem_cons.mp hw with hw | hw
          · subst hw
            rw [h3]
            exact List.mem_cons_self _ _
          · exact List.mem_cons_of_mem _ (ih.mpr ⟨w, hw, h1, h2, h3⟩)

/-- C4: on a successful listing, findOrphans returns exactly the
worktrees of the VCS list that are not the main worktree and whose path
matches no registry entry's path, as path+branch pairs; the registry is
not touched (the function is pure in the embedding). -/
theorem c4_findOrphans_exact (s : State) (V : List Worktree) :
    ∃ os, findOrphans s (.ok V) = .ok os ∧
      ∀ o, o ∈ os ↔ ∃ wt, wt ∈ V ∧ wt.IsMain = false ∧
        wt.Path ∉ trackedPaths s ∧ o = ⟨wt.Path, wt.Branch⟩ :=
  ⟨orphanScan (trackedPaths s) V, rfl, fun o => orphanScan_mem (trackedPaths s) V o⟩

/-- Witness for C4 on a main worktree, one tracked and one stray path. -/
theorem c4_witness :
    ∃ os, findOrphans ⟨some [("auth", ⟨"feature/auth", "/w/auth", 1⟩)]⟩
        (.ok [⟨"/w/main", "main", true⟩, ⟨"/w/auth", "feature/auth", false⟩,
          ⟨"/w/stray", "stray", false⟩]) = .ok os ∧
      ∀ o, o ∈ os ↔ ∃ wt,
        wt ∈ [(⟨"/w/main", "main", true⟩ : Worktree), ⟨"/w/auth", "feature/auth", false⟩,
          ⟨"/w/stray", "stray", false⟩] ∧ wt.IsMain = false ∧
        wt.Path ∉ trackedPaths ⟨some [("auth", ⟨"feature/auth", "/w/auth", 1⟩)]⟩ ∧
        o = ⟨wt.Path, wt.Branch⟩ :=
  c4_findOrphans_exact ⟨some [("auth", ⟨"feature/auth", "/w/auth", 1⟩)]⟩
    [⟨"/w/main", "main", true⟩, ⟨"/w/auth", "feature/auth", false⟩, ⟨"/w/stray", "stray", false⟩]

/-- C10: a successfully loaded registry always has an initialized
(non-nil) worktree map — also when the state file is absent or its
`worktrees` field is null — so `Add` on a loaded registry can never hit
the nil-map write panic. -/
theorem c10_load_initialized_map (fs : Fs) (dir : String) (s : State)
    (h : Load fs dir = .ok s) :
    s.Worktrees.isSome = true ∧
    ∀ al b p t, State.Add s al b p t ≠ .panicked := by
  have hsome : s.Worktrees.isSome = true := by
    unfold Load at h
    cases hread : fsRead fs (statePath dir) with
    | none =>
      rw [hread] at h
      cases h
      rfl
    | some j =>
      rw [hread] at h
      dsimp only at h
      cases hdec : decodeState j with
      | none =>
        rw [hdec] at h
        cases h
      | some s₂ =>
        rw [hdec] at h
        cases h
        rfl
  refine ⟨hsome, ?_⟩
  intro al b p t
  rcases Option.isSome_iff_exists.mp hsome with ⟨l, hl⟩
  by_cases hg : (s.Get al).isSome
  · simp [State.Add, hg]
  · simp [State.Add, hg, hl]

/-- Witness for C10 on a state file whose `worktrees` field is null. -/
theorem c10_witness :
    Load [(statePath "d", Json.obj [("worktrees", Json.null)])] "d" = .ok ⟨some []⟩ ∧
    (⟨some []⟩ : State).Worktrees.isSome = true ∧
    State.Add ⟨some []⟩ "a" "b" "/w/a" 0 ≠ .panicked := by
  have hload : Load [(statePath "d", Json.obj [("worktrees", Json.null)])] "d" = .ok ⟨some []⟩ := by
    simp [Load, fsRead, alookup, decodeState]
  refine ⟨hload, (c10_load_initialized_map _ "d" _ hload).1,
    (c10_load_initialized_map _ "d" _ hload).2 "a" "b" "/w/a" 0⟩

/-- C3: resolution precedence — an exact alias match wins over any
branch or path match; any registry match (alias, branch or path) beats
an orphan (the result is registry-tracked); and when nothing matches the
result is a not-found `ok none`, not an error. -/
theorem c3_resolution_precedence (q : String) (s : State)
    (L : Except String (List Worktree)) :
    (∀ e, s.Get q = some e →
      resolveWorktree q s L = .ok (some ⟨q, e.Path, e.Branch, true⟩)) ∧
    ((∃ p, p ∈ s.Worktrees.getD [] ∧ (p.1 = q ∨ p.2.Branch = q ∨ p.2.Path = q)) →
      ∃ r, resolveWorktree q s L = .ok (some r) ∧ r.InState = true) ∧
    (s.Get q = none →
      (∀ p ∈ s.Worktrees.getD [], p.2.Branch ≠ q ∧ p.2.Path ≠ q) →
      ∀ wts, L = .ok wts →
      (∀ wt ∈ wts, wt.IsMain = false → wt.Branch ≠ q ∧ wt.Path ≠ q) →
      resolveWorktree q s L = .ok none) := by
  refine ⟨?_, ?_, ?_⟩
  · intro e he
    simp [resolveWorktree, he]
  · rintro ⟨p, hp, hcase⟩
    cases hget : s.Get q with
    | some e =>
      exact ⟨⟨q, e.Path, e.Branch, true⟩, by simp [resolveWorktree, hget], rfl⟩
    | none =>
      have hkey : p.1 ≠ q := by
        intro hc
        have : q ∈ (s.Worktrees.getD []).map Prod.fst :=
          List.mem_map.mpr ⟨p, hp, hc⟩
        exact absurd this ((alookup_eq_none_iff q _).mp hget)
      cases hfb : (s.Worktrees.getD []).find? (fun p => p.2.Branch == q) with
      | some p₂ =>
        exact ⟨⟨p₂.1, p₂.2.Path, p₂.2.Branch, true⟩, by simp [resolveWorktree, hget, hfb], rfl⟩
      | none =>
        have hnb : p.2.Branch ≠ q := by
          intro hc
          have := List.find?_eq_none.mp hfb p hp
          simp [hc] at this
        have hpath : p.2.Path = q := by
          rcases hcase with hc | hc | hc
          · exact absurd hc hkey
          · exact absurd hc hnb
          · exact hc
        cases hfp : (s.Worktrees.getD []).find? (fun p => p.2.Path == q) with
        | some p₃ =>
          exact ⟨⟨p₃.1, p₃.2.Path, p₃.2.Branch, true⟩,
            by simp [resolveWorktree, hget, hfb, hfp], rfl⟩
        | none =>
          have := List.find?_eq_none.mp hfp p hp
          simp [hpath] at this
  · intro hget hreg wts hL hwts
    have hfb : (s.Worktrees.getD []).find? (fun p => p.2.Branch == q) = none :=
      List.find?_eq_none.mpr (fun x hx => by simp [(hreg x hx).1])
    have hfp : (s.Worktrees.getD []).find? (fun p => p.2.Path == q) = none :=
      List.find?_eq_none.mpr (fun x hx => by simp [(hreg x hx).2])
    have hfo : wts.find? (fun wt => !wt.IsMain && (wt.Branch == q || wt.Path == q)) = none := by
      refine List.find?_eq_none.mpr (fun x hx => ?_)
      cases hm : x.IsMain with
      | true => simp [hm]
      | false =>
        have := hwts x hx hm
        simp [hm, this.1, this.2]
    simp [resolveWorktree, hget, hfb, hfp, hL, hfo]

/-- Witness for C3: an alias "x" beats another entry whose branch is
"x"; a branch-only match is still registry-tracked; no match at all
yields `ok none`. -/
theorem c3_witness :
    resolveWorktree "x" ⟨some [("x", ⟨"feature/x", "/w/x", 1⟩), ("y", ⟨"x", "/w/y", 2⟩)]⟩
        (.ok []) = .ok (some ⟨"x", "/w/x", "feature/x", true⟩) ∧
    (∃ r, resolveWorktree "x" ⟨some [("y", ⟨"x", "/w/y", 2⟩)]⟩ (.ok []) = .ok (some r) ∧
      r.InState = true) ∧
    resolveWorktree "zzz" ⟨some [("x", ⟨"feature/x", "/w/x", 1⟩)]⟩
        (.ok [⟨"/w/main", "main", true⟩]) = .ok none :=
  ⟨(c3_resolution_precedence "x" ⟨some [("x", ⟨"feature/x", "/w/x", 1⟩), ("y", ⟨"x", "/w/y", 2⟩)]⟩ (.ok [])).1
      ⟨"feature/x", "/w/x", 1⟩ (by decide),
   (c3_resolution_precedence "x" ⟨some [("y", ⟨"x", "/w/y", 2⟩)]⟩ (.ok [])).2.1
      ⟨("y", ⟨"x", "/w/y", 2⟩), by decide, by decide⟩,
   (c3_resolution_precedence "zzz" ⟨some [("x", ⟨"feature/x", "/w/x", 1⟩)]⟩
      (.ok [⟨"/w/main", "main", true⟩])).2.2 (by decide) (by decide) _ rfl (by decide)⟩

/-- Fixed oracle environment for the single-removal scenarios. -/
def removeEnv₀ : RemoveEnv :=
  ⟨fun _ => .ok "clean", fun _ => true, true, .ok [], "y", true, true, false⟩

/-- C9 counterexample: on a resolution miss, runRemove returns an error
(the not-found message) and the top level exits with status 1 — the run
is not an exit-success abort as claimed. -/
theorem c9_counterexample :
    (runRemove removeEnv₀ "x" ⟨some []⟩ [] "root").result =
      .error ("no worktree matching \"" ++ "x" ++ "\" — run grove list to see available worktrees") ∧
    exitCode (runRemove removeEnv₀ "x" ⟨some []⟩ [] "root").result = 1 :=
  ⟨rfl, rfl⟩

/-- C9 amended: when resolution yields no match, runRemove performs no
side effect and returns the user-facing not-found error, which the top
level signals with exit status 1 (confirmation declines, by contrast,
are exit-success aborts). -/
theorem c9_amended_notfound_error (env : RemoveEnv) (q : String) (s : State)
    (fs : Fs) (root : String)
    (h : resolveWorktree q s env.listRes = .ok none) :
    (runRemove env q s fs root).result =
      .error ("no worktree matching \"" ++ q ++ "\" — run grove list to see available worktrees") ∧
    (runRemove env q s fs root).fs = fs ∧
    (runRemove env q s fs root).evs = [] ∧
    exitCode (runRemove env q s fs root).result = 1 := by
  simp [runRemove, h, exitCode]

/-- Witness for the amended C9 at a concrete empty registry. -/
theorem c9_witness :
    (runRemove removeEnv₀ "q" ⟨some []⟩ [] "root").result =
      .error ("no worktree matching \"" ++ "q" ++ "\" — run grove list to see available worktrees") ∧
    (runRemove removeEnv₀ "q" ⟨some []⟩ [] "root").fs = [] ∧
    (runRemove removeEnv₀ "q" ⟨some []⟩ [] "root").evs = [] ∧
    exitCode (runRemove removeEnv₀ "q" ⟨some []⟩ [] "root").result = 1 :=
  c9_amended_notfound_error removeEnv₀ "q" ⟨some []⟩ [] "root" rfl

/-- Decoding inverts encoding for one entry. -/
theorem decodeEntry_encodeEntry (e : WorktreeEntry) :
    decodeEntry (encodeEntry e) = some e := rfl

/-- Decoding inverts encoding for a list of map bindings. -/
theorem decodeEntries_encode (l : List (String × WorktreeEntry)) :
    decodeEntries (l.map (fun p => (p.1, encodeEntry p.2))) = some l := by
  induction l with
  | nil => rfl
  | cons hd tl ih =>
    simp [decodeEntries, decodeEntry_encodeEntry, ih]

/-- A load straight after a successful save returns the saved map, with
its bindings in marshalled (sorted) key order. -/
theorem load_save (fs : Fs) (dir : String) (R : State) :
    Load (Save fs dir R) dir = .ok ⟨some (sortedEntries (R.Worktrees.getD []))⟩ := by
  cases hw : R.Worktrees with
  | none =>
    simp [Load, Save, fsWrite, fsRead, alookup, encodeState, decodeState, hw,
      sortedEntries, List.insertionSort]
  | some l =>
    simp [Load, Save, fsWrite, fsRead, alookup, encodeState, decodeState, hw,
      decodeEntries_encode]

/-- C5: loading after a successful save returns a registry that is equal
to the saved one as a finite map — every alias resolves to the same
entry (branch, path and created timestamp included).  The no-duplicate
hypothesis is the invariant of a Go map's key set. -/
theorem c5_save_load_roundtrip (fs : Fs) (dir : String) (R : State)
    (hnd : ((R.Worktrees.getD []).map Prod.fst).Nodup) :
    ∃ R₂, Load (Save fs dir R) dir = .ok R₂ ∧ ∀ al, R₂.Get al = R.Get al := by
  refine ⟨⟨some (sortedEntries (R.Worktrees.getD []))⟩, load_save fs dir R, ?_⟩
  intro al
  have hperm : (sortedEntries (R.Worktrees.getD [])).Perm (R.Worktrees.getD []) :=
    List.perm_insertionSort _ _
  have hnd₂ : ((sortedEntries (R.Worktrees.getD [])).map Prod.fst).Nodup :=
    ((hperm.map Prod.fst).nodup_iff).mpr hnd
  show alookup al (sortedEntries (R.Worktrees.getD [])) = alookup al (R.Worktrees.getD [])
  exact alookup_eq_of_perm hperm hnd₂ al

/-- Witness for C5 on a two-entry registry (keys out of order, so the
marshalled order differs from the in-memory order). -/
theorem c5_witness :
    ∃ R₂, Load (Save [] "d" ⟨some [("b", ⟨"feature/b", "/w/b", 2⟩), ("a", ⟨"feature/a", "/w/a", 1⟩)]⟩) "d" = .ok R₂ ∧
      ∀ al, R₂.Get al = State.Get ⟨some [("b", ⟨"feature/b", "/w/b", 2⟩), ("a", ⟨"feature/a", "/w/a", 1⟩)]⟩ al :=
  c5_save_load_roundtrip [] "d" ⟨some [("b", ⟨"feature/b", "/w/b", 2⟩), ("a", ⟨"feature/a", "/w/a", 1⟩)]⟩ (by decide)

/-!
## Lemmas about the bulk-clean loop -/

/-- An entry counts as removed when its path is already gone or the VCS
removal succeeds. -/
def successCond (env : CleanEnv) (wt : worktreeInfo) : Bool :=
  !env.pathExists wt.path || env.removeOk wt.path

/-- Recognizer for registry-save events. -/
def isSaveEv : Ev → Bool
  | .saveState _ => true
  | _ => false

theorem cleanPass_count (env : CleanEnv) (force : Bool) :
    ∀ (infos : List worktreeInfo) (s : State),
      (cleanPass env force infos s).1 = (infos.filter (successCond env)).length := by
  intro infos
  induction infos with
  | nil => intro s; rfl
  | cons wt rest ih =>
    intro s
    cases hp : env.pathExists wt.path with
    | true =>
      cases hr : env.removeOk wt.path with
      | true => simp [cleanPass, hp, hr, successCond, ih]
      | false => simp [cleanPass, hp, hr, successCond, ih]
    | false => simp [cleanPass, hp, successCond, ih]

theorem cleanPass_vcsRemove_mem (env : CleanEnv) (force : Bool) :
    ∀ (infos : List worktreeInfo) (s : State) (p : String) (f : Bool),
      Ev.vcsRemove p f ∈ (cleanPass env force infos s).2.2 →
      env.pathExists p = true := by
  intro infos
  induction infos with
  | nil => intro s p f h; simp [cleanPass] at h
  | cons wt rest ih =>
    intro s p f h
    cases hp : env.pathExists wt.path with
    | true =>
      cases hr : env.removeOk wt.path with
      | true =>
        rw [cleanPass] at h
        simp only [hp, if_true, hr] at h
        rcases List.mem_cons.mp h with h | h
        · cases h
          exact hp
        · rcases List.mem_cons.mp h with h | h
          · cases h
          · exact ih _ p f h
      | false =>
        rw [cleanPass] at h
        simp only [hp, if_true, hr, if_false] at h
        rcases List.mem_cons.mp h with h | h
        · cases h
          exact hp
        · exact ih _ p f h
    | false =>
      rw [cleanPass] at h
      simp only [hp] at h
      rcases List.mem_cons.mp h with h | h
      · cases h
      · exact ih _ p f h

theorem cleanPass_get_mono (env : CleanEnv) (force : Bool) :
    ∀ (infos : List worktreeInfo) (s : State) (al : String),
      s.Get al = none → ((cleanPass env force infos s).2.1).Get al = none := by
  intro infos
  induction infos with
  | nil => intro s al h; exact h
  | cons wt rest ih =>
    intro s al h
    have hrm : ((State.Remove s wt.wtAlias).2).Get al = none := by
      by_cases hal : al = wt.wtAlias
      · subst hal
        exact remove_get_self s _
      · rw [remove_get_other s hal]
        exact h
    cases hp : env.pathExists wt.path with
    | true =>
      cases hr : env.removeOk wt.path with
      | true => simp [cleanPass, hp, hr]; exact ih _ al hrm
      | false => simp [cleanPass, hp, hr]; exact ih _ al h
    | false => simp [cleanPass, hp]; exact ih _ al hrm

theorem cleanPass_get_none (env : CleanEnv) (force : Bool) :
    ∀ (infos : List worktreeInfo) (s : State) (wt : worktreeInfo),
      wt ∈ infos → successCond env wt = true →
      ((cleanPass env force infos s).2.1).Get wt.wtAlias = none := by
  intro infos
  induction infos with
  | nil => intro s wt h; simp at h
  | cons hd rest ih =>
    intro s wt hmem hsucc
    rcases List.mem_cons.mp hmem with hmem | hmem
    · subst hmem
      rw [successCond] at hsucc
      cases hp : env.pathExists wt.path with
      | true =>
        have hr : env.removeOk wt.path = true := by
          rw [hp] at hsucc
          simpa using hsucc
        simp [cleanPass, hp, hr]
        exact cleanPass_get_mono env force rest _ _ (remove_get_self s wt.wtAlias)
      | false =>
        simp [cleanPass, hp]
        exact cleanPass_get_mono env force rest _ _ (remove_get_self s wt.wtAlias)
    · cases hp : env.pathExists hd.path with
      | true =>
        cases hr : env.removeOk hd.path with
        | true => simp [cleanPass, hp, hr]; exact ih _ wt hmem hsucc
        | false => simp [cleanPass, hp, hr]; exact ih _ wt hmem hsucc
      | false => simp [cleanPass, hp]; exact ih _ wt hmem hsucc

theorem cleanPass_get_kept (env : CleanEnv) (force : Bool) :
    ∀ (infos : List worktreeInfo) (s : State) (al : String),
      (∀ wt ∈ infos, wt.wtAlias = al →
        env.pathExists wt.path = true ∧ env.removeOk wt.path = false) →
      ((cleanPass env force infos s).2.1).Get al = s.Get al := by
  intro infos
  induction infos with
  | nil => intro s al _; rfl
  | cons hd rest ih =>
    intro s al hall
    have hrest : ∀ wt ∈ rest, wt.wtAlias = al →
        env.pathExists wt.path = true ∧ env.removeOk wt.path = false :=
      fun wt hw => hall wt (List.mem_cons_of_mem _ hw)
    by_cases hal : hd.wtAlias = al
    · have := hall hd (List.mem_cons_self _ _) hal
      simp [cleanPass, this.1, this.2]
      exact ih s al hrest
    · cases hp : env.pathExists hd.path with
      | true =>
        cases hr : env.removeOk hd.path with
        | true =>
          simp [cleanPass, hp, hr]
          rw [ih _ al hrest]
          exact remove_get_other s (fun hc => hal hc.symm)
        | false =>
          simp [cleanPass, hp, hr]
          exact ih _ al hrest
      | false =>
        simp [cleanPass, hp]
        rw [ih _ al hrest]
        exact remove_get_other s (fun hc => hal hc.symm)

theorem cleanPass_filter_save (env : CleanEnv) (force : Bool) :
    ∀ (infos : List worktreeInfo) (s : State),
      ((cleanPass env force infos s).2.2).filter isSaveEv = [] := by
  intro infos
  induction infos with
  | nil => intro s; rfl
  | cons wt rest ih =>
    intro s
    cases hp : env.pathExists wt.path with
    | true =>
      cases hr : env.removeOk wt.path with
      | true => simp [cleanPass, hp, hr, isSaveEv, ih]
      | false => simp [cleanPass, hp, hr, isSaveEv, ih]
    | false => simp [cleanPass, hp, isSaveEv, ih]

theorem orphanPass_evs (env : CleanEnv) (force : Bool) :
    ∀ os : List orphanWorktree,
      (orphanPass env force os).2 = os.map (fun o => Ev.vcsRemove o.Path force) := by
  intro os
  induction os with
  | nil => rfl
  | cons o rest ih =>
    cases hr : env.removeOk o.Path with
    | true => simp [orphanPass, hr, ih]
    | false => simp [orphanPass, hr, ih]

theorem orphanPass_count (env : CleanEnv) (force : Bool) :
    ∀ os : List orphanWorktree,
      (orphanPass env force os).1 = (os.filter (fun o => env.removeOk o.Path)).length := by
  intro os
  induction os with
  | nil => rfl
  | cons o rest ih =>
    cases hr : env.removeOk o.Path with
    | true => simp [orphanPass, hr, ih]
    | false => simp [orphanPass, hr, ih]

theorem filter_save_map_vcsRemove (os : List orphanWorktree) (f : Bool) :
    (os.map (fun o => Ev.vcsRemove o.Path f)).filter isSaveEv = [] := by
  induction os with
  | nil => rfl
  | cons o rest ih => simp [isSaveEv, ih]

theorem cleanOrphans_filter_save (env : CleanEnv) (t : State) (f₂ : Bool) :
    ((cleanOrphans env t f₂).2).filter isSaveEv = [] := by
  unfold cleanOrphans
  cases hos : findOrphans t env.listRes with
  | error e => rfl
  | ok os =>
    by_cases he : os.isEmpty
    · simp [he]
    · simp only [he, if_false, Bool.false_eq_true]
      by_cases hd : !(os.filter (fun o => !(statusOrUnknown env o.Path == "clean"))).isEmpty && !f₂
      · simp only [hd, if_true]
        by_cases hy : isYes env.answerOrphans
        · simp [hy, orphanPass_evs, filter_save_map_vcsRemove]
        · simp [hy]
      · simp only [hd, if_false]
        by_cases hy : isYes env.answerOrphans
        · simp [hy, orphanPass_evs, filter_save_map_vcsRemove]
        · simp [hy]

/-- The force flag actually used by the confirmed tracked pass
(cd.go:169-172): dirty entries upgrade the removal to forced. -/
def trackedForce (env : CleanEnv) (s : State) (cleanForce : Bool) : Bool :=
  if !((buildInfos env s).filter (fun wt => !(wt.status == "clean"))).isEmpty && !cleanForce then
    true
  else cleanForce

/-- Event trace of a confirmed clean whose save succeeds: tracked pass,
one save, prune, then the orphan pass on the post-pass registry. -/
theorem runClean_evs_saveOk (env : CleanEnv) (cleanForce : Bool) (s : State)
    (fs : Fs) (root : String)
    (hne : (s.Worktrees.getD []).isEmpty = false)
    (hconf : isYes env.answerTracked = true)
    (hsv : env.saveOk = true) :
    (runClean env cleanForce s fs root).evs =
      (cleanPass env (trackedForce env s cleanForce) (buildInfos env s) s).2.2 ++
      [Ev.saveState (cleanPass env (trackedForce env s cleanForce) (buildInfos env s) s).2.1] ++
      (if env.pruneOk then [Ev.prune] else [Ev.prune, Ev.warn "git worktree prune failed"]) ++
      (cleanOrphans env (cleanPass env (trackedForce env s cleanForce) (buildInfos env s) s).2.1 cleanForce).2 := by
  rw [runClean]
  simp only [hne, Bool.false_eq_true, if_false, hconf, Bool.not_true, hsv, if_true,
    Bool.true_eq_false, trackedForce]
  split <;> rfl

/-- Event trace of a confirmed clean whose save fails: tracked pass and
the attempted save only. -/
theorem runClean_evs_saveFail (env : CleanEnv) (cleanForce : Bool) (s : State)
    (fs : Fs) (root : String)
    (hne : (s.Worktrees.getD []).isEmpty = false)
    (hconf : isYes env.answerTracked = true)
    (hsv : env.saveOk = false) :
    (runClean env cleanForce s fs root).evs =
      (cleanPass env (trackedForce env s cleanForce) (buildInfos env s) s).2.2 ++
      [Ev.saveState (cleanPass env (trackedForce env s cleanForce) (buildInfos env s) s).2.1] := by
  rw [runClean]
  simp only [hne, Bool.false_eq_true, if_false, hconf, Bool.not_true, hsv, if_true,
    Bool.true_eq_false, trackedForce]

/-- C2: in a confirmed bulk clean, every entry is handled independently:
the removed count equals the number of entries whose path was gone or
whose VCS removal succeeded (iteration continues past failures); no VCS
removal is ever invoked for a path that no longer exists, yet such
entries are dropped from the registry and counted as removed; entries
whose VCS removal failed keep their registry record untouched; and the
whole run calls save exactly once, on the final registry holding exactly
the entries that were not successfully removed. -/
theorem c2_clean_partial_failure (env : CleanEnv) (cleanForce : Bool) (s : State)
    (fs : Fs) (root : String)
    (hne : (s.Worktrees.getD []).isEmpty = false)
    (hconf : isYes env.answerTracked = true) :
    let infos := buildInfos env s
    let pass := cleanPass env (trackedForce env s cleanForce) infos s
    pass.1 = (infos.filter (successCond env)).length ∧
    (∀ p f, Ev.vcsRemove p f ∈ pass.2.2 → env.pathExists p = true) ∧
    (∀ wt ∈ infos, successCond env wt = true →
      pass.2.1.Get wt.wtAlias = none) ∧
    (∀ al, (∀ wt ∈ infos, wt.wtAlias = al →
        env.pathExists wt.path = true ∧ env.removeOk wt.path = false) →
      pass.2.1.Get al = s.Get al) ∧
    (runClean env cleanForce s fs root).evs.filter isSaveEv =
      [Ev.saveState pass.2.1] := by
  intro infos pass
  refine ⟨cleanPass_count env _ infos s,
    fun p f h => cleanPass_vcsRemove_mem env _ infos s p f h,
    fun wt hw hs => cleanPass_get_none env _ infos s wt hw hs,
    fun al hall => cleanPass_get_kept env _ infos s al hall, ?_⟩
  cases hsv : env.saveOk with
  | true =>
    rw [runClean_evs_saveOk env cleanForce s fs root hne hconf hsv]
    rw [List.filter_append, List.filter_append, List.filter_append]
    rw [cleanPass_filter_save, cleanOrphans_filter_save]
    cases hpr : env.pruneOk <;> simp [isSaveEv, hpr]
  | false =>
    rw [runClean_evs_saveFail env cleanForce s fs root hne hconf hsv]
    rw [List.filter_append, cleanPass_filter_save]
    simp [isSaveEv]

/-- Oracle environment for the bulk-clean witnesses: path /w/c vanished,
VCS removal fails for /w/b, everything else succeeds, prompts say yes. -/
def cleanEnv₀ : CleanEnv :=
  ⟨fun _ => .ok "clean", fun p => !(p == "/w/c"), fun p => !(p == "/w/b"),
    .ok [], "y", "y", true, true⟩

/-- Three-entry registry for the bulk-clean witnesses. -/
def cleanState₀ : State :=
  ⟨some [("a", ⟨"fa", "/w/a", 1⟩), ("b", ⟨"fb", "/w/b", 2⟩), ("c", ⟨"fc", "/w/c", 3⟩)]⟩

/-- Witness for C2: one entry removed, one VCS failure kept, one stale
entry dropped without VCS removal; save called once. -/
theorem c2_witness :
    let infos := buildInfos cleanEnv₀ cleanState₀
    let pass := cleanPass cleanEnv₀ (trackedForce cleanEnv₀ cleanState₀ false) infos cleanState₀
    pass.1 = (infos.filter (successCond cleanEnv₀)).length ∧
    (∀ p f, Ev.vcsRemove p f ∈ pass.2.2 → cleanEnv₀.pathExists p = true) ∧
    (∀ wt ∈ infos, successCond cleanEnv₀ wt = true →
      pass.2.1.Get wt.wtAlias = none) ∧
    (∀ al, (∀ wt ∈ infos, wt.wtAlias = al →
        cleanEnv₀.pathExists wt.path = true ∧ cleanEnv₀.removeOk wt.path = false) →
      pass.2.1.Get al = cleanState₀.Get al) ∧
    (runClean cleanEnv₀ false cleanState₀ [] "r").evs.filter isSaveEv =
      [Ev.saveState pass.2.1] :=
  c2_clean_partial_failure cleanEnv₀ false cleanState₀ [] "r" (by decide) (by decide)

/-- When orphans were found and the user confirms, the orphan pass
attempts one forced-or-not removal per orphan, in order, and reports the
number that succeeded. -/
theorem cleanOrphans_spec (env : CleanEnv) (t : State) (f₂ : Bool)
    (os : List orphanWorktree)
    (hos : findOrphans t env.listRes = .ok os) (hne : os ≠ [])
    (hy : isYes env.answerOrphans = true) :
    ∃ f₃, (cleanOrphans env t f₂).2 = os.map (fun o => Ev.vcsRemove o.Path f₃) ∧
      (cleanOrphans env t f₂).1 = .ok ((os.filter (fun o => env.removeOk o.Path)).length) := by
  unfold cleanOrphans
  rw [hos]
  have hni : os.isEmpty = false := by
    cases os with
    | nil => exact absurd rfl hne
    | cons a l => rfl
  cases hd : (!(os.filter (fun o => !(statusOrUnknown env o.Path == "clean"))).isEmpty && !f₂) with
  | true =>
    simp only [hni, Bool.false_eq_true, if_false, hd, if_true, hy]
    exact ⟨true, orphanPass_evs env true os, by rw [orphanPass_count]⟩
  | false =>
    simp only [hni, Bool.false_eq_true, if_false, hd, hy, if_true]
    exact ⟨f₂, orphanPass_evs env f₂ os, by rw [orphanPass_count]⟩

/-- C8: bulk clean iterates the registry entries by sorted alias (the
processed alias list is a sorted permutation of the registry's key set),
and after the tracked pass — save, prune — the orphan-cleanup pass runs
the same status/confirm/remove loop over the VCS-known-but-untracked
worktrees of the post-pass registry. -/
theorem c8_clean_sorted_and_orphan_pass (env : CleanEnv) (cleanForce : Bool)
    (s : State) (fs : Fs) (root : String) :
    ((buildInfos env s).map (fun wt => wt.wtAlias) = sortedAliases s ∧
      List.Sorted (fun a b : String => a ≤ b) (sortedAliases s) ∧
      (sortedAliases s).Perm ((s.Worktrees.getD []).map Prod.fst)) ∧
    ((s.Worktrees.getD []).isEmpty = false → isYes env.answerTracked = true →
      env.saveOk = true →
      (runClean env cleanForce s fs root).evs =
        (cleanPass env (trackedForce env s cleanForce) (buildInfos env s) s).2.2 ++
        [Ev.saveState (cleanPass env (trackedForce env s cleanForce) (buildInfos env s) s).2.1] ++
        (if env.pruneOk then [Ev.prune] else [Ev.prune, Ev.warn "git worktree prune failed"]) ++
        (cleanOrphans env (cleanPass env (trackedForce env s cleanForce) (buildInfos env s) s).2.1 cleanForce).2) ∧
    (∀ t f₂ os, findOrphans t env.listRes = .ok os → os ≠ [] →
      isYes env.answerOrphans = true →
      ∃ f₃, (cleanOrphans env t f₂).2 = os.map (fun o => Ev.vcsRemove o.Path f₃) ∧
        (cleanOrphans env t f₂).1 = .ok ((os.filter (fun o => env.removeOk o.Path)).length)) := by
  refine ⟨⟨?_, ?_, ?_⟩, ?_, ?_⟩
  · rw [buildInfos, List.map_map]
    exact List.map_id'' (fun al => rfl) (sortedAliases s)
  · haveI h₁ : IsTotal String (fun a b => a ≤ b) := ⟨fun a b => le_total a b⟩
    haveI h₂ : IsTrans String (fun a b => a ≤ b) := ⟨fun a b c hab hbc => le_trans hab hbc⟩
    exact List.sorted_insertionSort _ _
  · exact List.perm_insertionSort _ _
  · intro hne hconf hsv
    exact runClean_evs_saveOk env cleanForce s fs root hne hconf hsv
  · intro t f₂ os hos hne hy
    exact cleanOrphans_spec env t f₂ os hos hne hy

/-- Oracle environment whose VCS listing contains one orphan. -/
def orphEnv₀ : CleanEnv :=
  ⟨fun _ => .ok "clean", fun _ => true, fun _ => true,
    .ok [⟨"/w/main", "main", true⟩, ⟨"/w/x", "bx", false⟩], "y", "y", true, true⟩

/-- Witness for C8: sorted three-alias pass, full confirmed trace, and a
confirmed orphan pass over one orphan. -/
theorem c8_witness :
    ((buildInfos cleanEnv₀ cleanState₀).map (fun wt => wt.wtAlias) = sortedAliases cleanState₀ ∧
      List.Sorted (fun a b : String => a ≤ b) (sortedAliases cleanState₀) ∧
      (sortedAliases cleanState₀).Perm ((cleanState₀.Worktrees.getD []).map Prod.fst)) ∧
    ((runClean cleanEnv₀ false cleanState₀ [] "r").evs =
      (cleanPass cleanEnv₀ (trackedForce cleanEnv₀ cleanState₀ false) (buildInfos cleanEnv₀ cleanState₀) cleanState₀).2.2 ++
      [Ev.saveState (cleanPass cleanEnv₀ (trackedForce cleanEnv₀ cleanState₀ false) (buildInfos cleanEnv₀ cleanState₀) cleanState₀).2.1] ++
      (if cleanEnv₀.pruneOk then [Ev.prune] else [Ev.prune, Ev.warn "git worktree prune failed"]) ++
      (cleanOrphans cleanEnv₀ (cleanPass cleanEnv₀ (trackedForce cleanEnv₀ cleanState₀ false) (buildInfos cleanEnv₀ cleanState₀) cleanState₀).2.1 false).2) ∧
    (∃ f₃, (cleanOrphans orphEnv₀ ⟨some []⟩ false).2 =
        ([⟨"/w/x", "bx"⟩] : List orphanWorktree).map (fun o => Ev.vcsRemove o.Path f₃) ∧
      (cleanOrphans orphEnv₀ ⟨some []⟩ false).1 =
        .ok (([⟨"/w/x", "bx"⟩] : List orphanWorktree).filter (fun o => orphEnv₀.removeOk o.Path)).length) :=
  ⟨(c8_clean_sorted_and_orphan_pass cleanEnv₀ false cleanState₀ [] "r").1,
   (c8_clean_sorted_and_orphan_pass cleanEnv₀ false cleanState₀ [] "r").2.1
      (by decide) (by decide) rfl,
   (c8_clean_sorted_and_orphan_pass orphEnv₀ false ⟨some []⟩ [] "r").2.2
      ⟨some []⟩ false [⟨"/w/x", "bx"⟩] rfl (by decide) (by decide)⟩

/-!
## Lemmas about the creation orchestrator -/

/-- Is this symlink outcome the fatal kind? -/
def isFailRes : SymlinkRes → Bool
  | .fail _ => true
  | _ => false

/-- One of the creation steps after the VCS add fails. -/
def setupFails (cfg : Config) (env : CreateEnv) : Bool :=
  (match env.copyRes with | .error _ => true | .ok _ => false) ||
  cfg.Symlink.any (fun n => isFailRes (env.symlinkRes n)) ||
  (cfg.AfterCreate != "" && !env.hookOk) ||
  !env.saveOk

theorem symlinkLoop_ok_no_fail (env : CreateEnv) :
    ∀ (names : List String) (l : List String),
      (symlinkLoop env names).2 = .ok l →
      names.any (fun n => isFailRes (env.symlinkRes n)) = false := by
  intro names
  induction names with
  | nil => intro l _; rfl
  | cons name rest ih =>
    intro l h
    cases hr : env.symlinkRes name with
    | fail m =>
      rw [symlinkLoop, hr] at h
      cases h
    | conflict =>
      rw [symlinkLoop, hr] at h
      simp only [List.any_cons, hr, isFailRes, Bool.false_or]
      exact ih l h
    | created =>
      rw [symlinkLoop, hr] at h
      simp only at h
      cases hrest : (symlinkLoop env rest).2 with
      | error e =>
        rw [hrest] at h
        cases h
      | ok l₂ =>
        simp only [List.any_cons, hr, isFailRes, Bool.false_or]
        exact ih l₂ hrest
    | skipped =>
      rw [symlinkLoop, hr] at h
      simp only [List.any_cons, hr, isFailRes, Bool.false_or]
      exact ih l h

theorem symlinkLoop_error_of_fail (env : CreateEnv) :
    ∀ names : List String,
      (∃ n ∈ names, ∃ m, env.symlinkRes n = .fail m) →
      ∃ e, (symlinkLoop env names).2 = .error e := by
  intro names
  induction names with
  | nil => rintro ⟨n, hn, _⟩; simp at hn
  | cons name rest ih =>
    rintro ⟨n, hn, m, hm⟩
    cases hr : env.symlinkRes name with
    | fail m₂ => exact ⟨"symlink " ++ name ++ ": " ++ m₂, by rw [symlinkLoop, hr]⟩
    | conflict =>
      have hrest : ∃ n ∈ rest, ∃ m, env.symlinkRes n = .fail m := by
        rcases List.mem_cons.mp hn with hn | hn
        · subst hn
          rw [hr] at hm
          cases hm
        · exact ⟨n, hn, m, hm⟩
      rcases ih hrest with ⟨e, he⟩
      exact ⟨e, by rw [symlinkLoop, hr]; exact he⟩
    | created =>
      have hrest : ∃ n ∈ rest, ∃ m, env.symlinkRes n = .fail m := by
        rcases List.mem_cons.mp hn with hn | hn
        · subst hn
          rw [hr] at hm
          cases hm
        · exact ⟨n, hn, m, hm⟩
      rcases ih hrest with ⟨e, he⟩
      exact ⟨e, by rw [symlinkLoop, hr]; simp only [he]⟩
    | skipped =>
      have hrest : ∃ n ∈ rest, ∃ m, env.symlinkRes n = .fail m := by
        rcases List.mem_cons.mp hn with hn | hn
        · subst hn
          rw [hr] at hm
          cases hm
        · exact ⟨n, hn, m, hm⟩
      rcases ih hrest with ⟨e, he⟩
      exact ⟨e, by rw [symlinkLoop, hr]; exact he⟩

theorem symlinkLoop_ok_of_no_fail (env : CreateEnv) :
    ∀ names : List String,
      (∀ n ∈ names, ∀ m, env.symlinkRes n ≠ .fail m) →
      ∃ l, (symlinkLoop env names).2 = .ok l := by
  intro names
  induction names with
  | nil => intro _; exact ⟨[], rfl⟩
  | cons name rest ih =>
    intro h
    have hrest := fun n hn => h n (List.mem_cons_of_mem _ hn)
    rcases ih hrest with ⟨l, hl⟩
    cases hr : env.symlinkRes name with
    | fail m => exact absurd hr (h name (List.mem_cons_self _ _) m)
    | conflict => exact ⟨l, by rw [symlinkLoop, hr]; exact hl⟩
    | created => exact ⟨name :: l, by rw [symlinkLoop, hr]; simp only [hl]⟩
    | skipped => exact ⟨l, by rw [symlinkLoop, hr]; exact hl⟩

theorem symlinkLoop_warn_mem (env : CreateEnv) :
    ∀ (names : List String) (name : String),
      (∀ n ∈ names, ∀ m, env.symlinkRes n ≠ .fail m) →
      name ∈ names → env.symlinkRes name = .conflict →
      Ev.warn ("skipping symlink " ++ name) ∈ (symlinkLoop env names).1 := by
  intro names
  induction names with
  | nil => intro name _ hmem; simp at hmem
  | cons hd rest ih =>
    intro name h hmem hconf
    have hrest := fun n hn => h n (List.mem_cons_of_mem _ hn)
    rcases List.mem_cons.mp hmem with hmem | hmem
    · subst hmem
      rw [symlinkLoop, hconf]
      exact List.mem_cons_self _ _
    · cases hr : env.symlinkRes hd with
      | fail m => exact absurd hr (h hd (List.mem_cons_self _ _) m)
      | conflict =>
        rw [symlinkLoop, hr]
        exact List.mem_cons_of_mem _ (ih name hrest hmem hconf)
      | created =>
        rw [symlinkLoop, hr]
        exact ih name hrest hmem hconf
      | skipped =>
        rw [symlinkLoop, hr]
        exact ih name hrest hmem hconf

theorem symlinkLoop_mem_created (env : CreateEnv) :
    ∀ (names l : List String) (n : String),
      (symlinkLoop env names).2 = .ok l → n ∈ l →
      env.symlinkRes n = .created := by
  intro names
  induction names with
  | nil =>
    intro l n h hn
    rw [symlinkLoop] at h
    cases h
    simp at hn
  | cons hd rest ih =>
    intro l n h hn
    cases hr : env.symlinkRes hd with
    | fail m =>
      rw [symlinkLoop, hr] at h
      cases h
    | conflict =>
      rw [symlinkLoop, hr] at h
      exact ih l n h hn
    | created =>
      rw [symlinkLoop, hr] at h
      simp only at h
      cases hrest : (symlinkLoop env rest).2 with
      | error e =>
        rw [hrest] at h
        cases h
      | ok l₂ =>
        rw [hrest] at h
        cases h
        rcases List.mem_cons.mp hn with hn | hn
        · subst hn
          exact hr
        · exact ih l₂ n hrest hn
    | skipped =>
      rw [symlinkLoop, hr] at h
      exact ih l n h hn

theorem symlinkLoop_created_mem (env : CreateEnv) :
    ∀ (names l : List String) (n : String),
      (symlinkLoop env names).2 = .ok l → n ∈ names →
      env.symlinkRes n = .created → n ∈ l := by
  intro names
  induction names with
  | nil => intro l n _ hn; simp at hn
  | cons hd rest ih =>
    intro l n h hn hcr
    cases hr : env.symlinkRes hd with
    | fail m =>
      rw [symlinkLoop, hr] at h
      cases h
    | conflict =>
      rw [symlinkLoop, hr] at h
      rcases List.mem_cons.mp hn with hn | hn
      · subst hn
        rw [hr] at hcr
        cases hcr
      · exact ih l n h hn hcr
    | created =>
      rw [symlinkLoop, hr] at h
      simp only at h
      cases hrest : (symlinkLoop env rest).2 with
      | error e =>
        rw [hrest] at h
        cases h
      | ok l₂ =>
        rw [hrest] at h
        cases h
        rcases List.mem_cons.mp hn with hn | hn
        · subst hn
          exact List.mem_cons_self _ _
        · exact List.mem_cons_of_mem _ (ih l₂ n hrest hn hcr)
    | skipped =>
      rw [symlinkLoop, hr] at h
      rcases List.mem_cons.mp hn with hn | hn
      · subst hn
        rw [hr] at hcr
        cases hcr
      · exact ih l n h hn hcr

/-- With a working rollback, the VCS list afterwards has no worktree at
the target path, and the forced removal was invoked. -/
theorem rollback_conjuncts (env : CreateEnv) (h : env.rollbackOk = true)
    (vcs : List Worktree) (path : String) :
    (∀ wt ∈ (rollback env vcs path).1, wt.Path ≠ path) ∧
    Ev.vcsRemove path true ∈ (rollback env vcs path).2 := by
  rw [rollback, if_pos h]
  refine ⟨fun wt hw => ?_, List.mem_cons_self _ _⟩
  simpa using (List.mem_filter.mp hw).2

/-- An absent alias means a `none` lookup. -/
theorem get_none_of_not_exists {s : State} {al : String}
    (h : State.AliasExists s al = false) : s.Get al = none := by
  rw [State.AliasExists] at h
  exact Option.not_isSome_iff_eq_none.mp (by simp [h])

/-- C1: whenever the VCS add succeeded and any later creation step fails
(environment-file copy, a fatal symlink error, the post-create hook, or
the final registry add/persist — in particular a save failure at the
final commit), the run errors out, the forced VCS-level rollback is
invoked, the resulting VCS worktree list has no entry at the target
path, and the persisted registry still has no entry for the derived
alias. -/
theorem c1_rollback_on_setup_failure (env : CreateEnv) (branch createName : String)
    (cfg : Config) (root : String) (s : State) (fs : Fs) (vcs : List Worktree)
    (h₁ : State.AliasExists s (deriveAlias createName branch) = false)
    (h₂ : s.Worktrees.isSome = true)
    (h₃ : env.gitAddOk = true)
    (h₄ : setupFails cfg env = true)
    (h₅ : env.rollbackOk = true)
    (h₆ : Load fs root = .ok s) :
    (∃ e, (runCreate env branch createName cfg root s fs vcs).result = .error e) ∧
    (∀ wt ∈ (runCreate env branch createName cfg root s fs vcs).vcs,
      wt.Path ≠ worktreePathOf root cfg (deriveAlias createName branch)) ∧
    Ev.vcsRemove (worktreePathOf root cfg (deriveAlias createName branch)) true ∈
      (runCreate env branch createName cfg root s fs vcs).evs ∧
    (runCreate env branch createName cfg root s fs vcs).fs = fs ∧
    (∀ s₂, Load (runCreate env branch createName cfg root s fs vcs).fs root = .ok s₂ →
      s₂.Get (deriveAlias createName branch) = none) := by
  have hget : s.Get (deriveAlias createName branch) = none := get_none_of_not_exists h₁
  have hlast : ∀ s₂, Load fs root = .ok s₂ →
      s₂.Get (deriveAlias createName branch) = none := by
    intro s₂ h
    rw [h₆] at h
    cases h
    exact hget
  simp only [runCreate, h₁, Bool.false_eq_true, if_false, h₃, Bool.not_true]
  cases hc : env.copyRes with
  | error e =>
    refine ⟨⟨e, rfl⟩, (rollback_conjuncts env h₅ _ _).1, ?_, rfl, hlast⟩
    exact List.mem_cons_of_mem _ (rollback_conjuncts env h₅ _ _).2
  | ok c =>
    cases hsl : (symlinkLoop env cfg.Symlink).2 with
    | error e =>
      refine ⟨⟨e, rfl⟩, (rollback_conjuncts env h₅ _ _).1, ?_, rfl, hlast⟩
      exact List.mem_cons_of_mem _
        (List.mem_append_right _ (rollback_conjuncts env h₅ _ _).2)
    | ok syml =>
      cases hAC : (cfg.AfterCreate != "" && !env.hookOk) with
      | true =>
        refine ⟨⟨"afterCreate command failed", rfl⟩,
          (rollback_conjuncts env h₅ _ _).1, ?_, rfl, hlast⟩
        exact List.mem_cons_of_mem _
          (List.mem_append_right _ (rollback_conjuncts env h₅ _ _).2)
      | false =>
        rcases Option.isSome_iff_exists.mp h₂ with ⟨lw, hlw⟩
        have hadd : State.Add s (deriveAlias createName branch) branch
            (worktreePathOf root cfg (deriveAlias createName branch)) env.now =
            .ok ⟨some (lw ++ [(deriveAlias createName branch,
              ⟨branch, worktreePathOf root cfg (deriveAlias createName branch), env.now⟩)])⟩ := by
          simp [State.Add, hget, hlw]
        have hanyf := symlinkLoop_ok_no_fail env cfg.Symlink syml hsl
        have hsave : env.saveOk = false := by
          simp only [setupFails, hc, hanyf, hAC, Bool.or_false, Bool.false_or] at h₄
          simpa using h₄
        simp only [hadd, hsave, Bool.false_eq_true, if_false]
        refine ⟨?_, ?_, ?_, ?_, ?_⟩
        · exact ⟨"state save failed", rfl⟩
        · exact (rollback_conjuncts env h₅ _ _).1
        · exact List.mem_cons_of_mem _
            (List.mem_append_right _ (rollback_conjuncts env h₅ _ _).2)
        · trivial
        · exact hlast

/-- Oracle environment for the C1 witness: everything succeeds except
the final registry persist, and the rollback works. -/
def createEnv₀ : CreateEnv :=
  ⟨true, .ok [], fun _ => .created, true, false, true, 7⟩

/-- Project configuration used by the creation witnesses. -/
def cfg₀ : Config := ⟨"..", "myapp", ["node_modules"], ""⟩

/-- Witness for C1: a persistence failure at the final commit still
rolls the worktree back and leaves the alias out of the registry. -/
theorem c1_witness :
    (∃ e, (runCreate createEnv₀ "feature/auth" "" cfg₀ "/r" ⟨some []⟩ [] []).result = .error e) ∧
    (∀ wt ∈ (runCreate createEnv₀ "feature/auth" "" cfg₀ "/r" ⟨some []⟩ [] []).vcs,
      wt.Path ≠ worktreePathOf "/r" cfg₀ (deriveAlias "" "feature/auth")) ∧
    Ev.vcsRemove (worktreePathOf "/r" cfg₀ (deriveAlias "" "feature/auth")) true ∈
      (runCreate createEnv₀ "feature/auth" "" cfg₀ "/r" ⟨some []⟩ [] []).evs ∧
    (runCreate createEnv₀ "feature/auth" "" cfg₀ "/r" ⟨some []⟩ [] []).fs = [] ∧
    (∀ s₂, Load (runCreate createEnv₀ "feature/auth" "" cfg₀ "/r" ⟨some []⟩ [] []).fs "/r" = .ok s₂ →
      s₂.Get (deriveAlias "" "feature/auth") = none) :=
  c1_rollback_on_setup_failure createEnv₀ "feature/auth" "" cfg₀ "/r" ⟨some []⟩ [] []
    (by decide) rfl rfl (by decide) rfl rfl

/-- The rollback always attempts the forced VCS removal, whether or not
it succeeds. -/
theorem rollback_ev_mem (env : CreateEnv) (vcs : List Worktree) (path : String) :
    Ev.vcsRemove path true ∈ (rollback env vcs path).2 := by
  rw [rollback]
  split
  · exact List.mem_cons_self _ _
  · exact List.mem_cons_self _ _

/-- C7: a symlink destination conflict is non-fatal — it is warned about
and that one symlink skipped while every other symlink and step
proceeds, and creation succeeds with the alias persisted in the registry
— whereas any other symlink error is fatal and triggers the rollback. -/
theorem c7_symlink_conflict_nonfatal (env : CreateEnv) (branch createName : String)
    (cfg : Config) (root : String) (s : State) (fs : Fs) (vcs : List Worktree) :
    (State.AliasExists s (deriveAlias createName branch) = false →
      s.Worktrees.isSome = true →
      ((s.Worktrees.getD []).map Prod.fst).Nodup →
      env.gitAddOk = true →
      (∀ m, env.copyRes ≠ .error m) →
      (∀ n ∈ cfg.Symlink, ∀ m, env.symlinkRes n ≠ .fail m) →
      (cfg.AfterCreate != "" && !env.hookOk) = false →
      env.saveOk = true →
      (runCreate env branch createName cfg root s fs vcs).result = .ok () ∧
      (∀ name ∈ cfg.Symlink, env.symlinkRes name = .conflict →
        Ev.warn ("skipping symlink " ++ name) ∈
          (runCreate env branch createName cfg root s fs vcs).evs ∧
        name ∉ (runCreate env branch createName cfg root s fs vcs).symlinked) ∧
      (∀ name ∈ cfg.Symlink, env.symlinkRes name = .created →
        name ∈ (runCreate env branch createName cfg root s fs vcs).symlinked) ∧
      (∃ s₂, Load (runCreate env branch createName cfg root s fs vcs).fs root = .ok s₂ ∧
        s₂.Get (deriveAlias createName branch) =
          some ⟨branch, worktreePathOf root cfg (deriveAlias createName branch), env.now⟩)) ∧
    (State.AliasExists s (deriveAlias createName branch) = false →
      env.gitAddOk = true →
      (∀ m, env.copyRes ≠ .error m) →
      (∃ n ∈ cfg.Symlink, ∃ m, env.symlinkRes n = .fail m) →
      (∃ e, (runCreate env branch createName cfg root s fs vcs).result = .error e) ∧
      Ev.vcsRemove (worktreePathOf root cfg (deriveAlias createName branch)) true ∈
        (runCreate env branch createName cfg root s fs vcs).evs) := by
  constructor
  · intro h₁ h₂ hnd h₃ hcopy hnofail hAC hsave
    have hget : s.Get (deriveAlias createName branch) = none := get_none_of_not_exists h₁
    rcases Option.isSome_iff_exists.mp h₂ with ⟨lw, hlw⟩
    obtain ⟨c, hc⟩ : ∃ c, env.copyRes = .ok c := by
      cases hc : env.copyRes with
      | error m => exact absurd hc (hcopy m)
      | ok c => exact ⟨c, rfl⟩
    rcases symlinkLoop_ok_of_no_fail env cfg.Symlink hnofail with ⟨syml, hsl⟩
    have hadd : State.Add s (deriveAlias createName branch) branch
        (worktreePathOf root cfg (deriveAlias createName branch)) env.now =
        .ok ⟨some (lw ++ [(deriveAlias createName branch,
          ⟨branch, worktreePathOf root cfg (deriveAlias createName branch), env.now⟩)])⟩ := by
      simp [State.Add, hget, hlw]
    have hlwnone : alookup (deriveAlias createName branch) lw = none := by
      rw [State.Get, hlw] at hget
      simpa using hget
    simp only [runCreate, h₁, Bool.false_eq_true, if_false, h₃, Bool.not_true,
      hc, hsl, hAC, hadd, hsave, if_true]
    refine ⟨trivial, ?_, ?_, ?_⟩
    · intro name hn hconf
      constructor
      · exact List.mem_cons_of_mem _
          (List.mem_append_left _ (symlinkLoop_warn_mem env cfg.Symlink name hnofail hn hconf))
      · intro hmem
        have := symlinkLoop_mem_created env cfg.Symlink syml name hsl hmem
        rw [hconf] at this
        cases this
    · intro name hn hcr
      exact symlinkLoop_created_mem env cfg.Symlink syml name hsl hn hcr
    · refine ⟨_, load_save fs root ⟨some (lw ++ [(deriveAlias createName branch,
        ⟨branch, worktreePathOf root cfg (deriveAlias createName branch), env.now⟩)])⟩, ?_⟩
      have hkey : deriveAlias createName branch ∉ lw.map Prod.fst :=
        (alookup_eq_none_iff _ _).mp hlwnone
      have hnd₁ : ((lw ++ [(deriveAlias createName branch,
          (⟨branch, worktreePathOf root cfg (deriveAlias createName branch), env.now⟩ : WorktreeEntry))]).map Prod.fst).Nodup := by
        rw [List.map_append]
        refine List.Nodup.append ?_ (List.nodup_singleton _) ?_
        · rw [hlw] at hnd
          simpa using hnd
        · simpa [List.disjoint_singleton] using hkey
      have hperm := List.perm_insertionSort (fun a b : String × WorktreeEntry => a.1 ≤ b.1)
        (lw ++ [(deriveAlias createName branch,
          (⟨branch, worktreePathOf root cfg (deriveAlias createName branch), env.now⟩ : WorktreeEntry))])
      have hnd₂ := ((hperm.map Prod.fst).nodup_iff).mpr hnd₁
      show alookup (deriveAlias createName branch)
        ((sortedEntries (lw ++ [(deriveAlias createName branch,
          ⟨branch, worktreePathOf root cfg (deriveAlias createName branch), env.now⟩)]))) = _
      rw [sortedEntries] at *
      rw [alookup_eq_of_perm hperm hnd₂, alookup_append, hlwnone]
      simp [alookup]
  · intro h₁ h₃ hcopy hfail
    obtain ⟨c, hc⟩ : ∃ c, env.copyRes = .ok c := by
      cases hc : env.copyRes with
      | error m => exact absurd hc (hcopy m)
      | ok c => exact ⟨c, rfl⟩
    rcases symlinkLoop_error_of_fail env cfg.Symlink hfail with ⟨e, hsl⟩
    simp only [runCreate, h₁, Bool.false_eq_true, if_false, h₃, Bool.not_true, hc, hsl]
    exact ⟨⟨e, rfl⟩, List.mem_cons_of_mem _
      (List.mem_append_right _ (rollback_ev_mem env _ _))⟩

/-- Oracle environment for the C7 witness: the .yarn/cache symlink hits
a destination conflict, node_modules is created, everything else works. -/
def createEnv₁ : CreateEnv :=
  ⟨true, .ok [".env"], fun n => if n == ".yarn/cache" then .conflict else .created,
    true, true, true, 7⟩

/-- Oracle environment whose symlinks all fail fatally. -/
def createEnv₂ : CreateEnv :=
  ⟨true, .ok [], fun _ => .fail "permission denied", true, true, true, 7⟩

/-- Symlink configuration used by the C7 witness. -/
def cfg₁ : Config := ⟨"..", "myapp", [".yarn/cache", "node_modules"], ""⟩

/-- Witness for C7: conflict on one symlink is skipped with a warning
and creation still commits the alias; a fatal symlink error rolls back. -/
theorem c7_witness :
    ((runCreate createEnv₁ "feature/symlink-conflict" "" cfg₁ "/r" ⟨some []⟩ [] []).result = .ok () ∧
      (∀ name ∈ cfg₁.Symlink, createEnv₁.symlinkRes name = .conflict →
        Ev.warn ("skipping symlink " ++ name) ∈
          (runCreate createEnv₁ "feature/symlink-conflict" "" cfg₁ "/r" ⟨some []⟩ [] []).evs ∧
        name ∉ (runCreate createEnv₁ "feature/symlink-conflict" "" cfg₁ "/r" ⟨some []⟩ [] []).symlinked) ∧
      (∀ name ∈ cfg₁.Symlink, createEnv₁.symlinkRes name = .created →
        name ∈ (runCreate createEnv₁ "feature/symlink-conflict" "" cfg₁ "/r" ⟨some []⟩ [] []).symlinked) ∧
      (∃ s₂, Load (runCreate createEnv₁ "feature/symlink-conflict" "" cfg₁ "/r" ⟨some []⟩ [] []).fs "/r" = .ok s₂ ∧
        s₂.Get (deriveAlias "" "feature/symlink-conflict") =
          some ⟨"feature/symlink-conflict",
            worktreePathOf "/r" cfg₁ (deriveAlias "" "feature/symlink-conflict"), createEnv₁.now⟩)) ∧
    ((∃ e, (runCreate createEnv₂ "feature/x" "" cfg₁ "/r" ⟨some []⟩ [] []).result = .error e) ∧
      Ev.vcsRemove (worktreePathOf "/r" cfg₁ (deriveAlias "" "feature/x")) true ∈
        (runCreate createEnv₂ "feature/x" "" cfg₁ "/r" ⟨some []⟩ [] []).evs) :=
  ⟨(c7_symlink_conflict_nonfatal createEnv₁ "feature/symlink-conflict" "" cfg₁ "/r" ⟨some []⟩ [] []).1
      (by decide) rfl (by decide) rfl
      (by intro m h; cases h)
      (by
        intro n hn m
        by_cases hh : n = ".yarn/cache" <;> simp [createEnv₁, hh])
      rfl rfl,
   (c7_symlink_conflict_nonfatal createEnv₂ "feature/x" "" cfg₁ "/r" ⟨some []⟩ [] []).2
      (by decide) rfl
      (by intro m h; cases h)
      ⟨".yarn/cache", by decide, "permission denied", rfl⟩⟩
